import Mathlib

/-!
Verification of the vsutils worker-pool task dispatcher.

This file gives a shallow embedding of the thread-pool / thread-dispatcher
component of the vsutils library and proves or refutes the frozen claims
about it.

Sources embedded here:
* `thread_pool.c` (the 2014-2019 revision, the one using a
  `pthread_rwlock_t` to protect the run state): `struct thread_pool` holds a
  single FIFO task list `tasks`, a run-state integer `run`, a queue mutex
  `mutex_tasks` with condition `cond_tasks`, a start mutex `mutex_start`
  with condition `cond_start`, and the rwlock `mutex_run`.
* `thread_dispatcher.c` (the 2016-2019 revision): `struct thread_dispatcher`
  holds `nb_threads` workers, each with its own FIFO queue and queue
  mutex/condition, a shared run state behind a rwlock, a start
  mutex/condition, and the `uint32_t next_select` round-robin counter.

Modelling conventions:
* The task list is a Lean `List`; the head of the list is the head of the
  queue (the element `obj->tasks.next` points at), and `list_head_add_tail`
  appends at the tail, so enqueue is `++ [t]`.
* Fallible pthread primitives (mutex lock, rwlock rdlock/wrlock,
  cond_signal) are modelled by explicit Boolean oracles: `true` means the
  call returned 0, `false` means it returned an error code.  The embedded
  function then follows exactly the branch the C code takes on that return
  value.
* Function pointers are modelled as identifiers (`Nat`), a NULL function
  pointer as `none`; calling through a pointer is recorded as an event in
  an explicit trace, so theorems can speak about which application code was
  invoked and in which order.
* The `uint32_t` round-robin counter is a `Nat` reduced modulo `2 ^ 32`
  at the increment, exactly where the C unsigned overflow happens.
-/

namespace VSUtils

/-- Task as in `struct thread_pool_task` / `struct thread_dispatcher_task`:
an opaque application data pointer, a run function pointer and a cleanup
function pointer.  Pointers are modelled as identifiers; the cleanup
pointer may be NULL (`none`), which the `thread_pool.h` comment allows
("The cleanup function (if not NULL) is executed after the run function"). -/
structure Task where
  data : Nat
  runFn : Nat
  cleanupFn : Option Nat
deriving DecidableEq, Repr

/-- Observable events emitted by the embedded operations: invocations of
application function pointers and the pthread condition-variable calls the
claims talk about. -/
inductive Ev where
  /-- Invocation `task.run(task.data)` through function pointer `fn`. -/
  | runCall (fn : Nat) (d : Nat) : Ev
  /-- Invocation `task.cleanup(task.data)`; `fn = none` is a call through a
  NULL function pointer. -/
  | cleanupCall (fn : Option Nat) (d : Nat) : Ev
  /-- Call `pthread_cond_signal(&cond_tasks)`. -/
  | signalTasks : Ev
  /-- Call `pthread_cond_broadcast(&cond_tasks)`. -/
  | bcastTasks : Ev
  /-- Call `pthread_cond_broadcast(&cond_start)`. -/
  | bcastStart : Ev
deriving DecidableEq, Repr

/-- State of `struct thread_pool` as far as the claims observe it: the FIFO
task list and the `run` field.  The pthread synchronization objects have no
persistent observable state of their own; their fallibility enters through
the per-call oracles. -/
structure ThreadPool where
  tasks : List Task
  run : Int
deriving DecidableEq, Repr

/-- Embeds `thread_pool_get_run`: rdlock the rwlock, read `run`, unlock;
on rdlock failure return `-99`. -/
def thread_pool_get_run (rdlockOk : Bool) (s : ThreadPool) : Int :=
  if rdlockOk then s.run else -99

/-- Embeds `thread_pool_set_run`: wrlock the rwlock, write `run`, unlock,
return 0; on wrlock failure leave the field unchanged and return `-1`. -/
def thread_pool_set_run (wrlockOk : Bool) (s : ThreadPool) (r : Int) :
    ThreadPool × Int :=
  if wrlockOk then ({ s with run := r }, 0) else (s, -1)

/-- Embeds `thread_pool_push` (the rwlock revision of `thread_pool.c`),
returning the new state, the `int` return value, and the emitted events.

The C code: malloc a copy `t` (failure returns -1); on
`pthread_mutex_lock(&obj->mutex_tasks) == 0` it notes
`first = list_head_is_empty(&obj->tasks)`, appends with
`list_head_add_tail`, and if `first` calls `pthread_cond_signal`; a failing
signal unlocks and returns -1 (with the task left in the list); otherwise
it unlocks.  Control then falls through to `return 0` — in particular a
failing mutex lock skips the whole block and still returns 0, with the copy
neither enqueued nor freed. -/
def thread_pool_push (mallocOk lockOk signalOk : Bool) (s : ThreadPool)
    (task : Task) : ThreadPool × Int × List Ev :=
  if !mallocOk then
    (s, -1, [])
  else if lockOk then
    let first := s.tasks.isEmpty
    let s' : ThreadPool := { s with tasks := s.tasks ++ [task] }
    if first then
      if signalOk then (s', 0, [Ev.signalTasks])
      else (s', -1, [Ev.signalTasks])
    else
      (s', 0, [])
  else
    (s, 0, [])

/-- Embeds `thread_pool_pop` (rwlock revision): on lock success it reads
the run state (a failing rdlock yields -99); `run <= 0` returns -1 with the
queue untouched; while the list is empty the worker waits on `cond_tasks`
(in this sequential model an empty queue simply yields no task); otherwise
the head task is copied out, its node removed from the list and freed.
`none` stands for the -1 return, `some t` for the 0 return filling `task`
with the head `t`. -/
def thread_pool_pop (lockOk rdlockOk : Bool) (s : ThreadPool) :
    ThreadPool × Option Task :=
  if lockOk then
    if thread_pool_get_run rdlockOk s ≤ 0 then (s, none)
    else
      match s.tasks with
      | [] => (s, none)
      | t :: rest => ({ s with tasks := rest }, some t)
  else
    (s, none)

/-- Embeds `thread_pool_clean` (rwlock revision): read the run state
(`rdlockOk` oracle); `run == 1` returns -1 immediately, leaving the list
untouched; otherwise, on lock success, every node is removed and freed
without touching its function pointers, `cond_tasks` is broadcast, and 0 is
returned; a failing lock also returns 0 (with the list untouched). -/
def thread_pool_clean (rdlockOk lockOk : Bool) (s : ThreadPool) :
    ThreadPool × Int × List Ev :=
  if thread_pool_get_run rdlockOk s = 1 then
    (s, -1, [])
  else if lockOk then
    ({ s with tasks := [] }, 0, [Ev.bcastTasks])
  else
    (s, 0, [])

/-- Embeds `thread_pool_start` (rwlock revision): on start-mutex lock
success it sets the run state to 1 (through `thread_pool_set_run`, whose
wrlock may itself fail), broadcasts `cond_start`, unlocks and returns 0; a
failing lock returns -1. -/
def thread_pool_start (lockOk wrlockOk : Bool) (s : ThreadPool) :
    ThreadPool × Int × List Ev :=
  if lockOk then
    ((thread_pool_set_run wrlockOk s 1).1, 0, [Ev.bcastStart])
  else
    (s, -1, [])

/-- Embeds `thread_pool_stop` (rwlock revision): same shape as
`thread_pool_start` with run state 0. -/
def thread_pool_stop (lockOk wrlockOk : Bool) (s : ThreadPool) :
    ThreadPool × Int × List Ev :=
  if lockOk then
    ((thread_pool_set_run wrlockOk s 0).1, 0, [Ev.bcastStart])
  else
    (s, -1, [])

/-- State of a fresh, successfully constructed pool, from
`thread_pool_new`: `ret->run = 0` and `list_head_init(&ret->tasks)`. -/
def thread_pool_new_ok : ThreadPool :=
  { tasks := [], run := 0 }

/-- Embeds the body of the running case of `thr_worker` after a successful
pop (`thread_pool.c` and `thread_dispatcher.c` are identical here):
`task.run(task.data); task.cleanup(task.data);` — both calls are made
unconditionally, with no check of the `cleanup` pointer. -/
def thr_worker_process (t : Task) : List Ev :=
  [Ev.runCall t.runFn t.data, Ev.cleanupCall t.cleanupFn t.data]

/-- Pushes a whole list of tasks in order with all pthread calls
succeeding, as a producer loop over `thread_pool_push` would. -/
def thread_pool_pushAll (ts : List Task) (s : ThreadPool) : ThreadPool :=
  ts.foldl (fun s t => (thread_pool_push true true true s t).1) s

/-- Pops `n` tasks in sequence with all pthread calls succeeding,
collecting the popped tasks in order, as the single consumer loop of
`thr_worker` does. -/
def thread_pool_popSeq : Nat → ThreadPool → List Task
  | 0, _ => []
  | n + 1, s =>
    match thread_pool_pop true true s with
    | (s', some t) => t :: thread_pool_popSeq n s'
    | (_, none) => []

/-- Applies a sequence of stop/start calls: each entry is
`(isStart, lockOk, wrlockOk)`. -/
def thread_pool_cycles (ops : List (Bool × Bool × Bool)) (s : ThreadPool) :
    ThreadPool :=
  ops.foldl
    (fun s op =>
      if op.1 then (thread_pool_start op.2.1 op.2.2 s).1
      else (thread_pool_stop op.2.1 op.2.2 s).1)
    s

/-- States of a pool reachable through the public operations, starting at
a successful `thread_pool_new`.  Every transition quantifies over the
oracles of its fallible pthread calls.  `thread_pool_free` only touches
the run state (it sets -1 through `thread_pool_set_run`) before the memory
is released, so it is modelled by that write. -/
inductive Reachable : ThreadPool → Prop where
  | new : Reachable thread_pool_new_ok
  | start (a b : Bool) {s} : Reachable s →
      Reachable (thread_pool_start a b s).1
  | stop (a b : Bool) {s} : Reachable s →
      Reachable (thread_pool_stop a b s).1
  | clean (a b : Bool) {s} : Reachable s →
      Reachable (thread_pool_clean a b s).1
  | push (a b c : Bool) (t : Task) {s} : Reachable s →
      Reachable (thread_pool_push a b c s t).1
  | pop (a b : Bool) {s} : Reachable s →
      Reachable (thread_pool_pop a b s).1
  | free (a : Bool) {s} : Reachable s →
      Reachable (thread_pool_set_run a s (-1)).1

/-! ### Construction of `thread_pool_new` (rwlock revision): synchronization
object pairing and the rollback path -/

/-- Synchronization objects of `struct thread_pool` (rwlock revision):
the queue mutex and condition, the run-state rwlock, and the start mutex
and condition.  (The short-lived `pthread_mutexattr_t` is an attribute
object, not a synchronization object, and is not tracked.) -/
inductive SObj where
  | mutexTasks : SObj
  | condTasks : SObj
  | rwRun : SObj
  | mutexStart : SObj
  | condStart : SObj
deriving DecidableEq, Repr

/-- Synchronization objects already successfully initialized when
`thread_pool_new` attempts to initialize `o`.  Read directly off the
straight-line initialization order of the source: `mutex_tasks`, then
`cond_tasks`, then `mutex_run` (the rwlock), then `mutex_start`, then
`cond_start`. -/
def initedBefore : SObj → List SObj
  | SObj.mutexTasks => []
  | SObj.condTasks => [SObj.mutexTasks]
  | SObj.rwRun => [SObj.mutexTasks, SObj.condTasks]
  | SObj.mutexStart => [SObj.mutexTasks, SObj.condTasks, SObj.rwRun]
  | SObj.condStart => [SObj.mutexTasks, SObj.condTasks, SObj.rwRun, SObj.mutexStart]

/-- Synchronization objects passed to a destroy call on the branch of
`thread_pool_new` where initializing `o` fails, in source order:
`pthread_mutex_init(&ret->mutex_tasks, ..)` failing destroys nothing;
`pthread_cond_init(&ret->cond_tasks, ..)` failing destroys `mutex_tasks`;
`pthread_rwlock_init(&ret->mutex_run, ..)` failing destroys `cond_start`
then `mutex_start`; `pthread_mutex_init(&ret->mutex_start, ..)` failing
destroys `mutex_tasks` then `cond_tasks`; `pthread_cond_init
(&ret->cond_start, ..)` failing destroys `mutex_tasks`, `cond_tasks`,
`mutex_start`. -/
def destroyedOnInitFail : SObj → List SObj
  | SObj.mutexTasks => []
  | SObj.condTasks => [SObj.mutexTasks]
  | SObj.rwRun => [SObj.condStart, SObj.mutexStart]
  | SObj.mutexStart => [SObj.mutexTasks, SObj.condTasks]
  | SObj.condStart => [SObj.mutexTasks, SObj.condTasks, SObj.mutexStart]

/-- Events of the construction rollback path of `thread_pool_new`. -/
inductive NewEv where
  /-- Call `thread_pool_set_run(ret, r)`. -/
  | setRunCall (r : Int) : NewEv
  /-- Call `pthread_mutex_lock(&ret->mutex_start)` succeeding. -/
  | lockStart : NewEv
  /-- Call `pthread_mutex_unlock(&ret->mutex_start)`. -/
  | unlockStart : NewEv
  /-- Call `pthread_cond_broadcast(&ret->cond_start)`. -/
  | bcastStartCall : NewEv
  /-- Call `pthread_cond_broadcast(&ret->cond_tasks)`. -/
  | bcastTasksCall : NewEv
  /-- Call `pthread_cond_signal(&ret->cond_tasks)`. -/
  | signalTasksCall : NewEv
  /-- Call `pthread_join(ret->threads[i], NULL)`. -/
  | joinThread (i : Nat) : NewEv
  /-- Call `pthread_cancel(ret->threads[i])` (lock-failure branch). -/
  | cancelThread (i : Nat) : NewEv
  /-- Call destroying synchronization object `o`. -/
  | destroyObj (o : SObj) : NewEv
  /-- Call `free(ret)`. -/
  | freeMem : NewEv
deriving DecidableEq, Repr

/-- Events of the per-started-thread loop of the rollback path of
`thread_pool_new`: `for(i = 0; i < ret->nb_threads; i++)`, each iteration
locks `mutex_start`, broadcasts `cond_start`, unlocks, and joins thread
`i`; if the lock fails the thread is cancelled instead. -/
def rollbackJoins (lockOk : Bool) : Nat → List NewEv
  | 0 => []
  | m + 1 =>
    rollbackJoins lockOk m ++
      (if lockOk then
        [NewEv.lockStart, NewEv.bcastStartCall, NewEv.unlockStart,
          NewEv.joinThread m]
      else [NewEv.cancelThread m])

/-- Events of the whole rollback path of `thread_pool_new`, entered when
`ret->nb_threads != nb`: `thread_pool_set_run(ret, -1)`, the join loop,
then `pthread_mutex_destroy(&ret->mutex_tasks)`,
`pthread_cond_destroy(&ret->cond_tasks)`,
`pthread_mutex_destroy(&ret->mutex_start)`,
`pthread_cond_destroy(&ret->cond_start)`, `free(ret)`.  (The source never
destroys the rwlock `mutex_run` on this path.) -/
def thread_pool_new_rollback (lockOk : Bool) (started : Nat) : List NewEv :=
  NewEv.setRunCall (-1) :: rollbackJoins lockOk started ++
    [NewEv.destroyObj SObj.mutexTasks, NewEv.destroyObj SObj.condTasks,
      NewEv.destroyObj SObj.mutexStart, NewEv.destroyObj SObj.condStart,
      NewEv.freeMem]

/-- Embeds the outcome of `thread_pool_new nb` as far as worker-thread
creation is concerned, with all allocation and synchronization-object
initialization succeeding: `nb = 0` returns NULL immediately; if
`pthread_create` succeeded for `started` threads and `started = nb` the
fresh pool is returned; otherwise (`started < nb`) the rollback path runs
and NULL is returned. -/
def thread_pool_new_sim (nb started : Nat) (lockOk : Bool) :
    Option ThreadPool × List NewEv :=
  if nb = 0 then (none, [])
  else if started = nb then (some thread_pool_new_ok, [])
  else (none, thread_pool_new_rollback lockOk started)

/-! ### The thread dispatcher (`thread_dispatcher.c`, rwlock revision) -/

/-- Modulus of the `uint32_t` round-robin counter `next_select`. -/
def uint32Mod : Nat := 4294967296

/-- State of `struct thread_dispatcher` as the claims observe it: the
worker count `nb_threads`, the round-robin counter `next_select`, and the
per-worker FIFO queues (`threads[w].tasks`). -/
structure Dispatcher where
  nbThreads : Nat
  nextSelect : Nat
  queues : List (List Task)
deriving DecidableEq, Repr

/-- Embeds `thread_dispatcher_push`: malloc a copy (failure returns -1);
`selected = color % obj->nb_threads`; on queue-lock success append the
copy at the tail of worker `selected`'s list, signalling `cond_tasks` when
the queue was empty (a failing signal unlocks and returns -1, the task
staying enqueued); on lock failure free the copy and return -1. -/
def thread_dispatcher_push (mallocOk lockOk signalOk : Bool)
    (d : Dispatcher) (task : Task) (color : Nat) :
    Dispatcher × Int × List Ev :=
  if !mallocOk then
    (d, -1, [])
  else
    let selected := color % d.nbThreads
    if lockOk then
      let q := d.queues.getD selected []
      let first := q.isEmpty
      let d' : Dispatcher :=
        { d with queues := d.queues.set selected (q ++ [task]) }
      if first then
        if signalOk then (d', 0, [Ev.signalTasks])
        else (d', -1, [Ev.signalTasks])
      else
        (d', 0, [])
    else
      (d, -1, [])

/-- Embeds `thread_dispatcher_push_random`: `color = obj->next_select;
obj->next_select++;` (a `uint32_t` increment, wrapping modulo `2 ^ 32`),
then delegate to `thread_dispatcher_push` with that color. -/
def thread_dispatcher_push_random (mallocOk lockOk signalOk : Bool)
    (d : Dispatcher) (task : Task) : Dispatcher × Int × List Ev :=
  let color := d.nextSelect
  let d' : Dispatcher := { d with nextSelect := (d.nextSelect + 1) % uint32Mod }
  thread_dispatcher_push mallocOk lockOk signalOk d' task color

/-- State of a fresh, successfully constructed dispatcher with `n`
workers, from `thread_dispatcher_new`: `run = 0`, `next_select = 0`, every
worker queue initialized empty. -/
def thread_dispatcher_new_ok (n : Nat) : Dispatcher :=
  { nbThreads := n, nextSelect := 0, queues := List.replicate n [] }

/-- Iterates `m` calls of `thread_dispatcher_push_random` with the same
task and all pthread calls succeeding. -/
def pushRandomN : Nat → Dispatcher → Task → Dispatcher
  | 0, d, _ => d
  | m + 1, d, t =>
    pushRandomN m (thread_dispatcher_push_random true true true d t).1 t

/-- Number of the first `m` round-robin submissions routed to worker `w`
out of `n`, when the `uint32_t` counter currently holds `c`: submission
number `i` uses color `(c + i) mod 2 ^ 32` and lands on worker
`color % n`. -/
def cntFrom : Nat → Nat → Nat → Nat → Nat
  | _, 0, _, _ => 0
  | c, m + 1, n, w =>
    (if c % n = w then 1 else 0) + cntFrom ((c + 1) % uint32Mod) m n w

/-- Wrap-free counterpart of `cntFrom`: the counter is a mathematical
natural that never wraps. -/
def rcount : Nat → Nat → Nat → Nat → Nat
  | _, 0, _, _ => 0
  | c, m + 1, n, w => (if c % n = w then 1 else 0) + rcount (c + 1) m n w

/-! ### Execution traces of the dispatcher's workers

Tasks are identified by their position in the global submission order
(list `colors`, where `colors[i]` is the color of the `i`-th submitted
task).  `thread_dispatcher_push` routes submission `i` to worker
`colors[i] % n`, appending at the tail of that worker's queue, so worker
`w`'s queue holds the submissions routed to it in submission order.  Each
worker is a single thread that loops `thread_worker_pop` (which removes
the queue head) and then runs the task to completion before popping
again, so the events a single worker `w` contributes to any execution are
exactly `workerSeq` of its queue, in that order.  A global execution is
any interleaving of the workers' event sequences: a list of events whose
projection onto each worker equals that worker's own sequence. -/

/-- Start and end of the `task.run(task.data)` invocation of the task
submitted at global position `i`. -/
inductive TEv where
  | beginRun (i : Nat) : TEv
  | endRun (i : Nat) : TEv
deriving DecidableEq, Repr

/-- Worker index that `thread_dispatcher_push` routes submission `i` to:
`selected = color % obj->nb_threads`. -/
def routedWorker (colors : List Nat) (n : Nat) (i : Nat) : Nat :=
  colors.getD i 0 % n

/-- Queue of worker `w` after all submissions in `colors` were pushed:
the submissions routed to `w`, in submission order (the queue mutex makes
each append atomic, and `list_head_add_tail` appends at the tail). -/
def workerQueue (colors : List Nat) (n w : Nat) : List Nat :=
  (List.range colors.length).filter (fun i => routedWorker colors n i == w)

/-- Event sequence of one worker processing queue `q` front to back: the
worker's loop pops the head and completes `task.run` before popping the
next task. -/
def workerSeq : List Nat → List TEv
  | [] => []
  | i :: q => TEv.beginRun i :: TEv.endRun i :: workerSeq q

/-- Worker that event `e` happens on. -/
def tevWorker (colors : List Nat) (n : Nat) : TEv → Nat
  | TEv.beginRun i => routedWorker colors n i
  | TEv.endRun i => routedWorker colors n i

/-- Valid global executions of a dispatcher with `n` workers after the
submissions `colors`: any interleaving of the per-worker sequences, i.e.
any event list whose projection onto each worker `w < n` is exactly
worker `w`'s own sequence. -/
def IsSchedule (colors : List Nat) (n : Nat) (tr : List TEv) : Prop :=
  ∀ w, w < n → tr.filter (fun e => tevWorker colors n e == w) =
    workerSeq (workerQueue colors n w)

instance (colors : List Nat) (n : Nat) (tr : List TEv) :
    Decidable (IsSchedule colors n tr) :=
  Nat.decidableBallLT n fun _ _ => _

/-- Sample task used by concrete witnesses. -/
def sampleTask : Task :=
  { data := 7, runFn := 1, cleanupFn := some 2 }

/-- Sample task with a NULL cleanup pointer. -/
def sampleTaskNull : Task :=
  { data := 7, runFn := 1, cleanupFn := none }

/-! ## Helper lemmas -/

theorem push_ok_tasks (s : ThreadPool) (t : Task) :
    (thread_pool_push true true true s t).1 =
      { s with tasks := s.tasks ++ [t] } := by
  by_cases h : s.tasks.isEmpty <;> simp [thread_pool_push, h]

theorem pushAll_eq (ts : List Task) (s : ThreadPool) :
    thread_pool_pushAll ts s = { s with tasks := s.tasks ++ ts } := by
  induction ts generalizing s with
  | nil => simp [thread_pool_pushAll]
  | cons t ts ih =>
    show thread_pool_pushAll ts (thread_pool_push true true true s t).1 = _
    rw [push_ok_tasks, ih]
    simp

theorem pop_running_cons (s : ThreadPool) (t : Task) (rest : List Task)
    (hr : s.run = 1) (ht : s.tasks = t :: rest) :
    thread_pool_pop true true s = ({ s with tasks := rest }, some t) := by
  unfold thread_pool_pop thread_pool_get_run
  rw [hr, ht]
  norm_num

theorem popSeq_running (ts rest : List Task) :
    thread_pool_popSeq ts.length { tasks := ts ++ rest, run := 1 } = ts := by
  induction ts with
  | nil => simp [thread_pool_popSeq]
  | cons t ts ih =>
    show thread_pool_popSeq (ts.length + 1) _ = _
    unfold thread_pool_popSeq
    rw [pop_running_cons _ t (ts ++ rest) rfl (by simp)]
    simp [ih]

theorem start_tasks (a b : Bool) (s : ThreadPool) :
    (thread_pool_start a b s).1.tasks = s.tasks := by
  cases a <;> cases b <;> simp [thread_pool_start, thread_pool_set_run]

theorem stop_tasks (a b : Bool) (s : ThreadPool) :
    (thread_pool_stop a b s).1.tasks = s.tasks := by
  cases a <;> cases b <;> simp [thread_pool_stop, thread_pool_set_run]

theorem cycles_tasks (ops : List (Bool × Bool × Bool)) (s : ThreadPool) :
    (thread_pool_cycles ops s).tasks = s.tasks := by
  induction ops generalizing s with
  | nil => rfl
  | cons op ops ih =>
    show (thread_pool_cycles ops _).tasks = _
    by_cases h : op.1 <;> simp [h, ih, start_tasks, stop_tasks]

theorem start_run (a b : Bool) (s : ThreadPool) :
    (thread_pool_start a b s).1.run = 1 ∨
      (thread_pool_start a b s).1.run = s.run := by
  cases a <;> cases b <;> simp [thread_pool_start, thread_pool_set_run]

theorem stop_run (a b : Bool) (s : ThreadPool) :
    (thread_pool_stop a b s).1.run = 0 ∨
      (thread_pool_stop a b s).1.run = s.run := by
  cases a <;> cases b <;> simp [thread_pool_stop, thread_pool_set_run]

theorem clean_run (a b : Bool) (s : ThreadPool) :
    (thread_pool_clean a b s).1.run = s.run := by
  unfold thread_pool_clean
  split
  · rfl
  · split <;> rfl

theorem push_run (a b c : Bool) (s : ThreadPool) (t : Task) :
    (thread_pool_push a b c s t).1.run = s.run := by
  cases a <;> cases b <;> cases c <;> by_cases h : s.tasks.isEmpty <;>
    simp [thread_pool_push, h]

theorem pop_run (a b : Bool) (s : ThreadPool) :
    (thread_pool_pop a b s).1.run = s.run := by
  unfold thread_pool_pop
  split
  · split
    · rfl
    · split <;> rfl
  · rfl

/-! ## Claim C5 -/

/-- C5: the task queue is FIFO: `thread_pool_push` appends at the tail of
the list and `thread_pool_pop` removes its head, so for every sequence of
submitted tasks, successive pops return the tasks in exactly the order
they were pushed. -/
theorem thread_pool_queue_fifo :
    (∀ s t, (thread_pool_push true true true s t).1.tasks =
      s.tasks ++ [t]) ∧
    (∀ (s : ThreadPool) t rest, s.run = 1 → s.tasks = t :: rest →
      thread_pool_pop true true s = ({ s with tasks := rest }, some t)) ∧
    (∀ ts : List Task,
      thread_pool_popSeq ts.length
        (thread_pool_pushAll ts { tasks := [], run := 1 }) = ts) := by
  refine ⟨fun s t => by rw [push_ok_tasks], pop_running_cons, fun ts => ?_⟩
  rw [pushAll_eq]
  simpa using popSeq_running ts []

/-- Witness for C5 at a concrete pool. -/
theorem thread_pool_queue_fifo_witness :
    thread_pool_pop true true { tasks := [sampleTask], run := 1 } =
      ({ tasks := [], run := 1 }, some sampleTask) :=
  thread_pool_queue_fifo.2.1 { tasks := [sampleTask], run := 1 }
    sampleTask [] rfl rfl

/-! ## Claim C9 -/

/-- C9: the worker loop invokes `task.cleanup` unconditionally immediately
after `task.run`, with no NULL check, so a task submitted with
`cleanup == NULL` is invoked through a null function pointer. -/
theorem worker_cleanup_unconditional :
    (∀ t : Task, thr_worker_process t =
      [Ev.runCall t.runFn t.data, Ev.cleanupCall t.cleanupFn t.data]) ∧
    (∀ t : Task, t.cleanupFn = none →
      Ev.cleanupCall none t.data ∈ thr_worker_process t) := by
  refine ⟨fun t => rfl, fun t h => ?_⟩
  simp [thr_worker_process, h]

/-- Witness for C9 at a task whose cleanup pointer is NULL. -/
theorem worker_cleanup_unconditional_witness :
    Ev.cleanupCall none sampleTaskNull.data ∈
      thr_worker_process sampleTaskNull :=
  worker_cleanup_unconditional.2 sampleTaskNull rfl

/-! ## Claim C2 -/

/-- C2 counterexample: when the queue mutex cannot be acquired (oracle
`lockOk = false`), `thread_pool_push` does not enqueue the task (and leaks
the heap copy) yet returns 0, i.e. success, refuting "it returns failure
… when the queue lock cannot be acquired". -/
theorem push_lock_failure_cex :
    (thread_pool_push true false true { tasks := [], run := 1 }
      sampleTask).2.1 = 0 ∧
    (thread_pool_push true false true { tasks := [], run := 1 }
      sampleTask).2.1 ≠ -1 ∧
    (thread_pool_push true false true { tasks := [], run := 1 }
      sampleTask).1.tasks = [] :=
  ⟨rfl, by decide, rfl⟩

/-- C2 (amended): `thread_pool_push` allocates an owned copy of the task;
on allocation failure it returns -1 with nothing enqueued; when the queue
lock is acquired it appends at the tail and signals (does not broadcast)
the task-condition exactly when the queue was empty before the append,
returning 0 unless that signal call fails, in which case it returns -1
with the task nevertheless enqueued; when the queue lock cannot be
acquired it enqueues nothing but still returns 0 (success). -/
theorem push_behavior (s : ThreadPool) (t : Task)
    (mallocOk lockOk signalOk : Bool) :
    (mallocOk = false →
      thread_pool_push mallocOk lockOk signalOk s t = (s, -1, [])) ∧
    (mallocOk = true → lockOk = true →
      (thread_pool_push mallocOk lockOk signalOk s t).1.tasks =
        s.tasks ++ [t] ∧
      ((Ev.signalTasks ∈ (thread_pool_push mallocOk lockOk signalOk s t).2.2)
        ↔ s.tasks = []) ∧
      Ev.bcastTasks ∉ (thread_pool_push mallocOk lockOk signalOk s t).2.2 ∧
      (thread_pool_push mallocOk lockOk signalOk s t).2.1 =
        (if s.tasks = [] ∧ signalOk = false then -1 else 0)) ∧
    (mallocOk = true → lockOk = false →
      thread_pool_push mallocOk lockOk signalOk s t = (s, 0, [])) := by
  refine ⟨fun h => by simp [thread_pool_push, h], fun hm hl => ?_,
    fun hm hl => by simp [thread_pool_push, hm, hl]⟩
  subst hm; subst hl
  by_cases h : s.tasks = [] <;> cases signalOk <;>
    simp [thread_pool_push, h]

/-- Witness for C2 (amended) at a concrete pool and task. -/
theorem push_behavior_witness :
    (thread_pool_push true true true { tasks := [], run := 0 }
      sampleTask).1.tasks = [] ++ [sampleTask] :=
  ((push_behavior { tasks := [], run := 0 } sampleTask true true true).2.1
    rfl rfl).1

/-! ## Claim C4 -/

/-- C4: `thread_pool_clean` called while the run-state is Running (1)
returns failure (-1) and leaves the task queue untouched; called while
the run-state is Stopped (0) it removes and frees every queued task
without invoking any task's run or cleanup operation and returns success
(0). -/
theorem clean_behavior (s : ThreadPool) (lockOk : Bool) :
    (s.run = 1 → thread_pool_clean true lockOk s = (s, -1, [])) ∧
    (s.run = 0 →
      (thread_pool_clean true true s).1 = { s with tasks := [] } ∧
      (thread_pool_clean true true s).2.1 = 0 ∧
      ∀ fn ofn d,
        Ev.runCall fn d ∉ (thread_pool_clean true true s).2.2 ∧
        Ev.cleanupCall ofn d ∉ (thread_pool_clean true true s).2.2) := by
  constructor
  · intro h
    simp [thread_pool_clean, thread_pool_get_run, h]
  · intro h
    simp [thread_pool_clean, thread_pool_get_run, h]

/-- Witness for C4 at concrete pools in the Running and Stopped states. -/
theorem clean_behavior_witness :
    thread_pool_clean true true { tasks := [sampleTask], run := 1 } =
      ({ tasks := [sampleTask], run := 1 }, -1, []) ∧
    (thread_pool_clean true true { tasks := [sampleTask], run := 0 }).1 =
      { tasks := [], run := 0 } :=
  ⟨(clean_behavior { tasks := [sampleTask], run := 1 } true).1 rfl,
    ((clean_behavior { tasks := [sampleTask], run := 0 } true).2 rfl).1⟩

/-! ## Claim C6 -/

/-- C6: `thread_pool_stop` modifies only the run-state (to 0, Stopped) and
broadcasts the start-condition; the task list is unchanged by stop, by any
sequence of stop/start calls (so queued tasks are neither discarded nor
duplicated by stop/start cycles), and after a subsequent successful start
the first queued task is the one popped by a worker. -/
theorem stop_frame (s : ThreadPool) (lockOk wrlockOk : Bool)
    (ops : List (Bool × Bool × Bool)) (t : Task) (rest : List Task) :
    (thread_pool_stop lockOk wrlockOk s).1.tasks = s.tasks ∧
    (lockOk = true → wrlockOk = true →
      (thread_pool_stop lockOk wrlockOk s).1 = { s with run := 0 } ∧
      (thread_pool_stop lockOk wrlockOk s).2.2 = [Ev.bcastStart]) ∧
    (thread_pool_cycles ops s).tasks = s.tasks ∧
    (s.tasks = t :: rest →
      thread_pool_pop true true (thread_pool_start true true s).1 =
        ({ tasks := rest, run := 1 }, some t)) := by
  refine ⟨stop_tasks lockOk wrlockOk s, fun hl hw => ?_,
    cycles_tasks ops s, fun ht => ?_⟩
  · subst hl; subst hw
    simp [thread_pool_stop, thread_pool_set_run]
  · have hstart : (thread_pool_start true true s).1 = { s with run := 1 } := by
      simp [thread_pool_start, thread_pool_set_run]
    rw [hstart, pop_running_cons { s with run := 1 } t rest rfl ht]

/-- Witness for C6: stop leaves the queued task in place, and after a
subsequent start the worker pops exactly that task. -/
theorem stop_frame_witness :
    (thread_pool_stop true true { tasks := [sampleTask], run := 1 }).1 =
      { tasks := [sampleTask], run := 0 } ∧
    thread_pool_pop true true
        (thread_pool_start true true
          { tasks := [sampleTask], run := 0 }).1 =
      ({ tasks := [], run := 1 }, some sampleTask) :=
  ⟨((stop_frame { tasks := [sampleTask], run := 1 } true true []
      sampleTask []).2.1 rfl rfl).1,
    (stop_frame { tasks := [sampleTask], run := 0 } true true []
      sampleTask []).2.2.2 rfl⟩

/-! ## Claim C7 -/

/-- C7: in every state reachable through the public operations, the run
field holds one of exactly the three values 0 (Stopped), 1 (Running),
-1 (Destroying); and it is 0 immediately after successful construction. -/
theorem run_state_domain :
    (∀ s, Reachable s → s.run = 0 ∨ s.run = 1 ∨ s.run = -1) ∧
    thread_pool_new_ok.run = 0 := by
  refine ⟨fun s h => ?_, rfl⟩
  induction h with
  | new => left; rfl
  | start a b _ ih =>
    rcases start_run a b _ with h | h <;> rw [h] <;> tauto
  | stop a b _ ih =>
    rcases stop_run a b _ with h | h <;> rw [h] <;> tauto
  | clean a b _ ih => rw [clean_run]; exact ih
  | push a b c t _ ih => rw [push_run]; exact ih
  | pop a b _ ih => rw [pop_run]; exact ih
  | free a _ ih =>
    cases a
    · simpa [thread_pool_set_run] using ih
    · simp [thread_pool_set_run]

/-- Witness for C7 at the freshly constructed pool. -/
theorem run_state_domain_witness :
    thread_pool_new_ok.run = 0 ∨ thread_pool_new_ok.run = 1 ∨
      thread_pool_new_ok.run = -1 :=
  run_state_domain.1 thread_pool_new_ok Reachable.new

/-! ## Claim C10 -/

/-- C10: the claimed init/destroy pairing is the intended invariant, but
the code of `thread_pool_new` (rwlock revision) violates it: on the
branch where initializing the run-state rwlock fails it destroys
`cond_start` and `mutex_start`, which are not yet initialized at that
point, and never destroys the already-initialized `mutex_tasks` and
`cond_tasks`. -/
theorem new_init_destroy_pairing_bug :
    SObj.condStart ∈ destroyedOnInitFail SObj.rwRun ∧
    SObj.condStart ∉ initedBefore SObj.rwRun ∧
    SObj.mutexTasks ∈ initedBefore SObj.rwRun ∧
    SObj.mutexTasks ∉ destroyedOnInitFail SObj.rwRun ∧
    ¬ (∀ o : SObj,
        (∀ o2 ∈ destroyedOnInitFail o, o2 ∈ initedBefore o) ∧
        (∀ o2 ∈ initedBefore o, o2 ∈ destroyedOnInitFail o)) := by
  refine ⟨by decide, by decide, by decide, by decide, fun h => ?_⟩
  exact absurd ((h SObj.rwRun).1 SObj.condStart (by decide)) (by decide)

/-! ## Claim C3 -/

theorem rollbackJoins_count_bcast (m : Nat) :
    (rollbackJoins true m).count NewEv.bcastStartCall = m := by
  induction m with
  | zero => rfl
  | succ m ih => simp [rollbackJoins, ih]

theorem rollbackJoins_join_mem (m i : Nat) (h : i < m) :
    NewEv.joinThread i ∈ rollbackJoins true m := by
  induction m with
  | zero => omega
  | succ m ih =>
    rcases Nat.lt_succ_iff_lt_or_eq.1 h with h' | h'
    · simp [rollbackJoins, ih h']
    · subst h'
      simp [rollbackJoins]

theorem rollbackJoins_no_bcastTasks (b : Bool) (m : Nat) :
    NewEv.bcastTasksCall ∉ rollbackJoins b m := by
  induction m with
  | zero => simp [rollbackJoins]
  | succ m ih => cases b <;> simp [rollbackJoins, ih]

theorem rollbackJoins_no_signalTasks (b : Bool) (m : Nat) :
    NewEv.signalTasksCall ∉ rollbackJoins b m := by
  induction m with
  | zero => simp [rollbackJoins]
  | succ m ih => cases b <;> simp [rollbackJoins, ih]

theorem rollbackJoins_no_destroy (b : Bool) (m : Nat) (o : SObj) :
    NewEv.destroyObj o ∉ rollbackJoins b m := by
  induction m with
  | zero => simp [rollbackJoins]
  | succ m ih => cases b <;> simp [rollbackJoins, ih]

/-- C3 counterexample: with 2 requested workers and thread creation
failing after 1 started worker, the rollback path never wakes anyone
through the task-condition (neither broadcast nor signal of `cond_tasks`
appears in its trace), and never destroys the run-state rwlock, refuting
"wakes every already-started worker … and through the task-condition …
destroys the synchronization objects". -/
theorem new_rollback_cex :
    (thread_pool_new_sim 2 1 true).1 = none ∧
    NewEv.bcastTasksCall ∉ (thread_pool_new_sim 2 1 true).2 ∧
    NewEv.signalTasksCall ∉ (thread_pool_new_sim 2 1 true).2 ∧
    NewEv.destroyObj SObj.rwRun ∉ (thread_pool_new_sim 2 1 true).2 := by
  decide

/-- C3 (amended): construction with worker count 0 fails immediately with
no handle; and whenever thread creation fails partway through (with the
start-mutex locks succeeding), construction sets the run-state to
Destroying (-1), broadcasts the start-condition once per already-started
worker, joins each started thread, destroys the task mutex/condition and
start mutex/condition (but not the run-state rwlock), frees the memory,
returns no handle — and wakes nobody through the task-condition. -/
theorem new_rollback_behavior (nb started : Nat) (hnb : 0 < nb)
    (hs : started < nb) :
    (∀ (b : Bool) (st : Nat), thread_pool_new_sim 0 st b = (none, [])) ∧
    (thread_pool_new_sim nb started true).1 = none ∧
    NewEv.setRunCall (-1) ∈ (thread_pool_new_sim nb started true).2 ∧
    (∀ i, i < started →
      NewEv.joinThread i ∈ (thread_pool_new_sim nb started true).2) ∧
    (thread_pool_new_sim nb started true).2.count NewEv.bcastStartCall =
      started ∧
    (∀ o, o ≠ SObj.rwRun →
      NewEv.destroyObj o ∈ (thread_pool_new_sim nb started true).2) ∧
    NewEv.freeMem ∈ (thread_pool_new_sim nb started true).2 ∧
    NewEv.bcastTasksCall ∉ (thread_pool_new_sim nb started true).2 ∧
    NewEv.signalTasksCall ∉ (thread_pool_new_sim nb started true).2 ∧
    NewEv.destroyObj SObj.rwRun ∉ (thread_pool_new_sim nb started true).2
    := by
  have hne : ¬ nb = 0 := by omega
  have hsn : ¬ started = nb := by omega
  refine ⟨fun b st => by simp [thread_pool_new_sim], ?_, ?_, ?_, ?_, ?_,
    ?_, ?_, ?_, ?_⟩ <;>
    simp only [thread_pool_new_sim, hne, hsn, if_false,
      thread_pool_new_rollback]
  · simp
  · intro i hi
    simp [rollbackJoins_join_mem started i hi]
  · simp [rollbackJoins_count_bcast]
  · intro o ho
    cases o <;> simp_all
  · simp
  · simp [rollbackJoins_no_bcastTasks]
  · simp [rollbackJoins_no_signalTasks]
  · simp [rollbackJoins_no_destroy]

/-- Witness for C3 (amended) at 3 requested workers with 2 started. -/
theorem new_rollback_behavior_witness :
    (thread_pool_new_sim 3 2 true).1 = none ∧
    NewEv.joinThread 1 ∈ (thread_pool_new_sim 3 2 true).2 :=
  ⟨(new_rollback_behavior 3 2 (by decide) (by decide)).2.1,
    (new_rollback_behavior 3 2 (by decide) (by decide)).2.2.2.1 1
      (by decide)⟩

/-! ## Counting lemmas for the round-robin counter -/

theorem cntFrom_succ (c m n w : Nat) :
    cntFrom c (m + 1) n w =
      (if c % n = w then 1 else 0) +
        cntFrom ((c + 1) % uint32Mod) m n w := rfl

theorem rcount_succ_right (m c n w : Nat) :
    rcount c (m + 1) n w =
      rcount c m n w + (if (c + m) % n = w then 1 else 0) := by
  induction m generalizing c with
  | zero => simp [rcount]
  | succ m ih =>
    show (if c % n = w then 1 else 0) + rcount (c + 1) (m + 1) n w = _
    rw [ih (c + 1)]
    show _ = (if c % n = w then 1 else 0) + rcount (c + 1) m n w +
      (if (c + (m + 1)) % n = w then 1 else 0)
    have : c + 1 + m = c + (m + 1) := by omega
    rw [this]
    omega

theorem rcount_add_right (a b c n w : Nat) :
    rcount c (a + b) n w = rcount c a n w + rcount (c + a) b n w := by
  induction b with
  | zero => simp [rcount]
  | succ b ih =>
    have h1 : a + (b + 1) = (a + b) + 1 := by omega
    rw [h1, rcount_succ_right, ih, rcount_succ_right b (c + a)]
    have h2 : c + (a + b) = c + a + b := by omega
    rw [h2]
    omega

theorem rcount_block_aux (c n w : Nat) (hc : c % n = 0) (hw : w < n) :
    ∀ b, b ≤ n →
      rcount (c + (n - b)) b n w = if n - b ≤ w then 1 else 0 := by
  intro b
  induction b with
  | zero =>
    intro _
    simp only [rcount, Nat.sub_zero]
    rw [if_neg (by omega)]
  | succ b ih =>
    intro hb
    have hp : n - (b + 1) < n := by omega
    have hmod : (c + (n - (b + 1))) % n = n - (b + 1) := by
      obtain ⟨q, hq⟩ := Nat.dvd_of_mod_eq_zero hc
      rw [hq]
      have hcomm : n * q + (n - (b + 1)) = (n - (b + 1)) + q * n := by ring
      rw [hcomm, Nat.add_mul_mod_self_right, Nat.mod_eq_of_lt hp]
    show (if (c + (n - (b + 1))) % n = w then 1 else 0) +
        rcount (c + (n - (b + 1)) + 1) b n w = _
    have hstep : c + (n - (b + 1)) + 1 = c + (n - b) := by omega
    rw [hmod, hstep, ih (by omega)]
    split_ifs <;> omega

theorem rcount_kn (k n w : Nat) (hw : w < n) :
    rcount 0 (k * n) n w = k := by
  induction k with
  | zero => simp [rcount]
  | succ k ih =>
    have h1 : (k + 1) * n = k * n + n := by ring
    rw [h1, rcount_add_right, ih]
    have hblock := rcount_block_aux (k * n) n w (Nat.mul_mod_left k n) hw n
      (le_refl n)
    simp only [Nat.sub_self, Nat.add_zero] at hblock
    rw [Nat.zero_add, hblock]
    simp [hw.le, Nat.zero_le]

theorem cntFrom_eq_rcount (m : Nat) : ∀ c n w, c + m ≤ uint32Mod →
    cntFrom c m n w = rcount c m n w := by
  induction m with
  | zero => intro c n w _; rfl
  | succ m ih =>
    intro c n w h
    cases m with
    | zero => simp [cntFrom, rcount]
    | succ m' =>
      show (if c % n = w then 1 else 0) +
          cntFrom ((c + 1) % uint32Mod) (m' + 1) n w = _
      have hlt : c + 1 < uint32Mod := by
        have : 0 < m' + 1 := Nat.succ_pos m'
        omega
      rw [Nat.mod_eq_of_lt hlt, ih (c + 1) n w (by omega)]
      rfl

theorem cntFrom_add (a : Nat) : ∀ b c n w, c < uint32Mod →
    cntFrom c (a + b) n w =
      cntFrom c a n w + cntFrom ((c + a) % uint32Mod) b n w := by
  induction a with
  | zero =>
    intro b c n w hc
    simp [cntFrom, Nat.mod_eq_of_lt hc]
  | succ a ih =>
    intro b c n w hc
    have h1 : a + 1 + b = (a + b) + 1 := by omega
    show cntFrom c (a + 1 + b) n w = _
    rw [h1]
    show (if c % n = w then 1 else 0) +
        cntFrom ((c + 1) % uint32Mod) (a + b) n w = _
    rw [ih b ((c + 1) % uint32Mod) n w (Nat.mod_lt _ (by norm_num [uint32Mod]))]
    have h2 : ((c + 1) % uint32Mod + a) % uint32Mod = (c + (a + 1)) % uint32Mod := by
      rw [Nat.mod_add_mod]
      congr 1
      omega
    rw [h2]
    show _ = (if c % n = w then 1 else 0) +
      cntFrom ((c + 1) % uint32Mod) a n w + cntFrom ((c + (a + 1)) % uint32Mod) b n w
    omega

/-! ## Queue-shape lemmas for the dispatcher -/

theorem dispatcher_push_meta (a b c : Bool) (d : Dispatcher) (t : Task)
    (color : Nat) :
    (thread_dispatcher_push a b c d t color).1.nbThreads = d.nbThreads ∧
    (thread_dispatcher_push a b c d t color).1.nextSelect = d.nextSelect ∧
    (thread_dispatcher_push a b c d t color).1.queues.length =
      d.queues.length := by
  unfold thread_dispatcher_push
  dsimp only
  split
  · exact ⟨rfl, rfl, rfl⟩
  · split
    · split
      · split <;> exact ⟨rfl, rfl, by simp⟩
      · exact ⟨rfl, rfl, by simp⟩
    · exact ⟨rfl, rfl, rfl⟩

theorem dispatcher_push_queue_self (d : Dispatcher) (t : Task)
    (color : Nat) (hlen : d.queues.length = d.nbThreads)
    (hn : 0 < d.nbThreads) :
    (thread_dispatcher_push true true true d t color).1.queues.getD
        (color % d.nbThreads) [] =
      d.queues.getD (color % d.nbThreads) [] ++ [t] := by
  have hsel : color % d.nbThreads < d.queues.length := by
    rw [hlen]; exact Nat.mod_lt _ hn
  by_cases h : (d.queues.getD (color % d.nbThreads) []).isEmpty <;>
    simp only [thread_dispatcher_push, h, Bool.not_true, Bool.false_eq_true,
      if_false, if_true, Bool.true_eq_false] <;>
    rw [List.getD_eq_getElem _ _ (by simpa using hsel)] <;>
    simp

theorem dispatcher_push_queue_other (d : Dispatcher) (t : Task)
    (color w : Nat) (hw : w ≠ color % d.nbThreads) :
    (thread_dispatcher_push true true true d t color).1.queues.getD w [] =
      d.queues.getD w [] := by
  by_cases hwlen : w < d.queues.length
  · by_cases h : (d.queues.getD (color % d.nbThreads) []).isEmpty <;>
      simp only [thread_dispatcher_push, h, Bool.not_true,
        Bool.false_eq_true, if_false, if_true, Bool.true_eq_false] <;>
      rw [List.getD_eq_getElem _ _ (by simpa using hwlen),
        List.getD_eq_getElem _ _ hwlen] <;>
      rw [List.getElem_set_ne (by omega)]
  · by_cases h : (d.queues.getD (color % d.nbThreads) []).isEmpty <;>
      simp only [thread_dispatcher_push, h, Bool.not_true,
        Bool.false_eq_true, if_false, if_true, Bool.true_eq_false] <;>
      rw [List.getD_eq_default _ _ (by simpa using Nat.le_of_not_lt hwlen),
        List.getD_eq_default _ _ (Nat.le_of_not_lt hwlen)]

theorem push_random_step (d : Dispatcher) (t : Task) (w : Nat)
    (hn : 0 < d.nbThreads) (hlen : d.queues.length = d.nbThreads) :
    ((thread_dispatcher_push_random true true true d t).1.queues.getD
        w []).length =
      (d.queues.getD w []).length +
        (if d.nextSelect % d.nbThreads = w then 1 else 0) ∧
    (thread_dispatcher_push_random true true true d t).1.nbThreads =
      d.nbThreads ∧
    (thread_dispatcher_push_random true true true d t).1.nextSelect =
      (d.nextSelect + 1) % uint32Mod ∧
    (thread_dispatcher_push_random true true true d t).1.queues.length =
      d.queues.length := by
  obtain ⟨h1, h2, h3⟩ := dispatcher_push_meta true true true
    (Dispatcher.mk d.nbThreads ((d.nextSelect + 1) % uint32Mod) d.queues)
    t d.nextSelect
  refine ⟨?_, h1, h2, h3⟩
  by_cases hw : w = d.nextSelect % d.nbThreads
  · subst hw
    have hself := dispatcher_push_queue_self
      (Dispatcher.mk d.nbThreads ((d.nextSelect + 1) % uint32Mod) d.queues)
      t d.nextSelect hlen hn
    show ((thread_dispatcher_push true true true
      (Dispatcher.mk d.nbThreads ((d.nextSelect + 1) % uint32Mod)
        d.queues) t d.nextSelect).1.queues.getD
        (d.nextSelect % d.nbThreads) []).length = _
    rw [hself]
    simp
  · have hother := dispatcher_push_queue_other
      (Dispatcher.mk d.nbThreads ((d.nextSelect + 1) % uint32Mod) d.queues)
      t d.nextSelect w hw
    show ((thread_dispatcher_push true true true
      (Dispatcher.mk d.nbThreads ((d.nextSelect + 1) % uint32Mod)
        d.queues) t d.nextSelect).1.queues.getD w []).length = _
    rw [hother, if_neg (fun h => hw h.symm)]
    simp

theorem pushRandomN_len (m : Nat) : ∀ (d : Dispatcher) (t : Task) (w : Nat),
    0 < d.nbThreads → d.queues.length = d.nbThreads →
    ((pushRandomN m d t).queues.getD w []).length =
      (d.queues.getD w []).length +
        cntFrom d.nextSelect m d.nbThreads w := by
  induction m with
  | zero => intro d t w _ _; simp [pushRandomN, cntFrom]
  | succ m ih =>
    intro d t w hn hlen
    obtain ⟨hq, h1, h2, h3⟩ := push_random_step d t w hn hlen
    show ((pushRandomN m (thread_dispatcher_push_random true true true d t).1
      t).queues.getD w []).length = _
    rw [ih _ t w (by rw [h1]; exact hn) (by rw [h3, h1]; exact hlen),
      hq, h1, h2]
    show _ = _ + cntFrom d.nextSelect (m + 1) d.nbThreads w
    rw [cntFrom_succ]
    omega

theorem getD_replicate_nil (n w : Nat) :
    (List.replicate n ([] : List Task)).getD w [] = [] := by
  by_cases h : w < n
  · rw [List.getD_eq_getElem _ _ (by simpa using h)]
    simp
  · rw [List.getD_eq_default _ _ (by simpa using Nat.le_of_not_lt h)]

/-! ## Claim C8 -/

/-- C8 counterexample: the round-robin counter is a `uint32_t`, so once
`k * worker_count` exceeds `2 ^ 32` the wrap-around skews the spread.
With 3 workers and `k = 1431655766` (so `k * 3 = 2 ^ 32 + 2`), worker 0
receives `k + 1` tasks, not `k`. -/
theorem push_random_wrap_cex :
    ((pushRandomN (1431655766 * 3) (thread_dispatcher_new_ok 3)
      sampleTask).queues.getD 0 []).length ≠ 1431655766 := by
  have hlen := pushRandomN_len (1431655766 * 3) (thread_dispatcher_new_ok 3)
    sampleTask 0 (by norm_num [thread_dispatcher_new_ok])
    (by simp [thread_dispatcher_new_ok])
  have hq0 : (thread_dispatcher_new_ok 3).queues.getD 0 [] = [] :=
    getD_replicate_nil 3 0
  have e1 : (thread_dispatcher_new_ok 3).nextSelect = 0 := rfl
  have e2 : (thread_dispatcher_new_ok 3).nbThreads = 3 := rfl
  rw [hq0, e1, e2] at hlen
  have hU : 1431655766 * 3 = uint32Mod + 2 := by norm_num [uint32Mod]
  have hsplit := cntFrom_add uint32Mod 2 0 3 0 (by norm_num [uint32Mod])
  have h0U : (0 + uint32Mod) % uint32Mod = 0 := by simp
  rw [h0U] at hsplit
  have hwrapfree := cntFrom_eq_rcount uint32Mod 0 3 0 (by omega)
  have hU2 : uint32Mod = 1431655765 * 3 + 1 := by norm_num [uint32Mod]
  have hr := rcount_add_right (1431655765 * 3) 1 0 3 0
  have hk := rcount_kn 1431655765 3 0 (by norm_num)
  have hone : rcount (0 + 1431655765 * 3) 1 3 0 = 1 := by
    show (if (0 + 1431655765 * 3) % 3 = 0 then 1 else 0) +
      rcount (0 + 1431655765 * 3 + 1) 0 3 0 = 1
    rw [Nat.zero_add, Nat.mul_mod_left]
    simp [rcount]
  have htwo : cntFrom 0 2 3 0 = 1 := by
    rw [cntFrom_succ, cntFrom_succ]
    norm_num [cntFrom, uint32Mod]
  rw [hU] at hlen
  rw [hU, hlen, hsplit, hwrapfree, htwo, hU2, hr, hk, hone]
  simp only [List.length_nil]
  omega

/-- C8 (amended): colored submit routes a task to the queue of worker
`color mod n` (leaving all other queues untouched); `push_random` uses the
shared counter as the color (the counter starts at 0 on a fresh
dispatcher and each call increments it modulo `2 ^ 32`); consequently,
submitting `k * worker_count` tasks via `push_random` on a fresh
dispatcher places exactly `k` tasks on each worker, provided
`k * worker_count ≤ 2 ^ 32` (beyond that the `uint32_t` counter wraps and
the spread is no longer exact). -/
theorem push_random_round_robin :
    (∀ (d : Dispatcher) (t : Task) (color : Nat), 0 < d.nbThreads →
      d.queues.length = d.nbThreads →
      (thread_dispatcher_push true true true d t color).1.queues.getD
          (color % d.nbThreads) [] =
        d.queues.getD (color % d.nbThreads) [] ++ [t] ∧
      ∀ w, w ≠ color % d.nbThreads →
        (thread_dispatcher_push true true true d t color).1.queues.getD
            w [] = d.queues.getD w []) ∧
    (∀ (d : Dispatcher) (t : Task), 0 < d.nbThreads →
      d.queues.length = d.nbThreads →
      (thread_dispatcher_push_random true true true d t).1.nextSelect =
        (d.nextSelect + 1) % uint32Mod ∧
      (thread_dispatcher_push_random true true true d t).1.queues.getD
          (d.nextSelect % d.nbThreads) [] =
        d.queues.getD (d.nextSelect % d.nbThreads) [] ++ [t]) ∧
    (∀ n : Nat, (thread_dispatcher_new_ok n).nextSelect = 0) ∧
    (∀ (n k w : Nat) (t : Task), 0 < n → w < n → k * n ≤ uint32Mod →
      ((pushRandomN (k * n) (thread_dispatcher_new_ok n) t).queues.getD
        w []).length = k) := by
  refine ⟨fun d t color hn hlen =>
      ⟨dispatcher_push_queue_self d t color hlen hn,
        fun w hw => dispatcher_push_queue_other d t color w hw⟩,
    fun d t hn hlen => ⟨?_, ?_⟩, fun n => rfl, ?_⟩
  · show (thread_dispatcher_push true true true
      (Dispatcher.mk d.nbThreads ((d.nextSelect + 1) % uint32Mod)
        d.queues) t d.nextSelect).1.nextSelect = _
    exact (dispatcher_push_meta true true true
      (Dispatcher.mk d.nbThreads ((d.nextSelect + 1) % uint32Mod)
        d.queues) t d.nextSelect).2.1
  · show (thread_dispatcher_push true true true
      (Dispatcher.mk d.nbThreads ((d.nextSelect + 1) % uint32Mod)
        d.queues) t d.nextSelect).1.queues.getD
        (d.nextSelect % d.nbThreads) [] = _
    exact dispatcher_push_queue_self
      (Dispatcher.mk d.nbThreads ((d.nextSelect + 1) % uint32Mod) d.queues)
      t d.nextSelect hlen hn
  · intro n k w t hn hw hk
    have hlen := pushRandomN_len (k * n) (thread_dispatcher_new_ok n) t w
      (by simpa [thread_dispatcher_new_ok] using hn)
      (by simp [thread_dispatcher_new_ok])
    have hq0 : (thread_dispatcher_new_ok n).queues.getD w [] = [] :=
      getD_replicate_nil n w
    have e1 : (thread_dispatcher_new_ok n).nextSelect = 0 := rfl
    have e2 : (thread_dispatcher_new_ok n).nbThreads = n := rfl
    rw [hq0, e1, e2] at hlen
    rw [hlen, cntFrom_eq_rcount (k * n) 0 n w (by omega),
      rcount_kn k n w hw]
    simp

/-- Witness for C8 (amended) with 2 workers and 6 round-robin pushes. -/
theorem push_random_round_robin_witness :
    ((pushRandomN (3 * 2) (thread_dispatcher_new_ok 2)
      sampleTask).queues.getD 0 []).length = 3 :=
  push_random_round_robin.2.2.2 2 3 0 sampleTask (by norm_num)
    (by norm_num) (by norm_num [uint32Mod])

/-! ## Claim C1 -/

theorem mem_workerSeq_begin {i : Nat} :
    ∀ {q : List Nat}, i ∈ q → TEv.beginRun i ∈ workerSeq q := by
  intro q h
  induction q with
  | nil => cases h
  | cons a q ih =>
    rcases List.mem_cons.1 h with h' | h'
    · subst h'
      simp [workerSeq]
    · simp [workerSeq, ih h']

theorem pair_sublist_of_pairwise_lt :
    ∀ (l : List Nat) (i j : Nat), l.Pairwise (· < ·) → i ∈ l → j ∈ l →
      i < j → List.Sublist [i, j] l := by
  intro l
  induction l with
  | nil => intro i j _ hi _ _; cases hi
  | cons a l ih =>
    intro i j hp hi hj hij
    rcases List.mem_cons.1 hi with rfl | hi'
    · have hj' : j ∈ l := by
        rcases List.mem_cons.1 hj with h | h
        · omega
        · exact h
      exact List.Sublist.cons₂ i (List.singleton_sublist.2 hj')
    · rcases List.mem_cons.1 hj with rfl | hj'
      · exfalso
        have := (List.pairwise_cons.1 hp).1 i hi'
        omega
      · exact List.Sublist.cons a
          (ih i j (List.pairwise_cons.1 hp).2 hi' hj' hij)

theorem seq_pair_sublist :
    ∀ (q : List Nat) (i j : Nat), List.Sublist [i, j] q →
      List.Sublist [TEv.endRun i, TEv.beginRun j] (workerSeq q) := by
  intro q
  induction q with
  | nil =>
    intro i j h
    exact absurd (List.sublist_nil.1 h) (by simp)
  | cons a q ih =>
    intro i j h
    cases h with
    | cons _ h' =>
      show List.Sublist [TEv.endRun i, TEv.beginRun j]
        (TEv.beginRun a :: TEv.endRun a :: workerSeq q)
      exact ((ih i j h').cons _).cons _
    | cons₂ _ h' =>
      show List.Sublist [TEv.endRun a, TEv.beginRun j]
        (TEv.beginRun a :: TEv.endRun a :: workerSeq q)
      exact List.Sublist.cons _ (List.Sublist.cons₂ _
        (List.singleton_sublist.2
          (mem_workerSeq_begin (List.singleton_sublist.1 h'))))

/-- C1: for two tasks submitted with the same color (positions `i < j` of
the global submission order), in every valid execution (any interleaving
of the per-worker FIFO processing sequences, covering any number of
producers and any number of calls), the end of task `i`'s run invocation
occurs strictly before the begin of task `j`'s run invocation: the two
run invocations never overlap in time, and they execute in enqueue
order. -/
theorem same_color_serialized (colors : List Nat) (n : Nat)
    (tr : List TEv) (hn : 0 < n) (hs : IsSchedule colors n tr)
    (i j : Nat) (hij : i < j) (hj : j < colors.length)
    (hc : colors.getD i 0 = colors.getD j 0) :
    List.Sublist [TEv.endRun i, TEv.beginRun j] tr := by
  have hwlt : routedWorker colors n i < n := Nat.mod_lt _ hn
  have hiq : i ∈ workerQueue colors n (routedWorker colors n i) := by
    simp only [workerQueue, List.mem_filter, List.mem_range]
    exact ⟨by omega, by simp⟩
  have hjq : j ∈ workerQueue colors n (routedWorker colors n i) := by
    simp only [workerQueue, List.mem_filter, List.mem_range]
    refine ⟨hj, ?_⟩
    have : routedWorker colors n j = routedWorker colors n i := by
      unfold routedWorker
      rw [hc]
    simp [this]
  have hpw : (workerQueue colors n (routedWorker colors n i)).Pairwise
      (· < ·) :=
    List.Pairwise.sublist (List.filter_sublist _) (List.pairwise_lt_range _)
  have hpair := pair_sublist_of_pairwise_lt _ i j hpw hiq hjq hij
  have hseq := seq_pair_sublist _ i j hpair
  rw [← hs (routedWorker colors n i) hwlt] at hseq
  exact hseq.trans (List.filter_sublist tr)

/-- Witness for C1: two tasks of color 5 on a 2-worker dispatcher, with
the fully sequential execution as the valid trace. -/
theorem same_color_serialized_witness :
    List.Sublist [TEv.endRun 0, TEv.beginRun 1]
      [TEv.beginRun 0, TEv.endRun 0, TEv.beginRun 1, TEv.endRun 1] :=
  same_color_serialized [5, 5] 2
    [TEv.beginRun 0, TEv.endRun 0, TEv.beginRun 1, TEv.endRun 1]
    (by decide) (by decide) 0 1 (by decide) (by decide) (by decide)

end VSUtils
